import Mathlib

/-!
Verification of the AFTDF plane-wave density-fitting module
(`pyscf/pbc/df/aft.py`): a shallow embedding of its block-size
formulas, k-point shape handling, nuclear/pseudopotential assembly
and eta estimation, with theorems settling the specified properties.

Machine reals (Python floats) are modelled by exact rationals `ℚ`
(or by `ℝ` where a transcendental function appears); complex values
by pairs `ℚ × ℚ`; integer truncation `int(...)` by natural floor
division.  External collaborators (the Gaussian-integral library,
`ft_ao`, `aft_jk`, grid generation) enter as explicit parameters.
-/

/-- Complex numbers over `ℚ`, as (real, imaginary) pairs. -/
abbrev Cq := ℚ × ℚ

/-- Complex multiplication on `Cq`. -/
def cmul (z w : Cq) : Cq := (z.1 * w.1 - z.2 * w.2, z.1 * w.2 + z.2 * w.1)

/-- Complex conjugation on `Cq`. -/
def cconj (z : Cq) : Cq := (z.1, -z.2)

/-- Scaling of a `Cq` value by a rational (real) factor. -/
def csmul (a : ℚ) (z : Cq) : Cq := (a * z.1, a * z.2)

/-- A k-point: a 3-vector of (rational) reals. -/
abbrev Vec3 := ℚ × ℚ × ℚ

/-- The zero (Γ-point) k-point vector. -/
def zero3 : Vec3 := (0, 0, 0)

/-- Modelled from the spec: `is_zero` / `gamma_point` from
`pyscf.pbc.lib.kpt_misc` (not under `src/`); the spec's glossary defines
the Γ-point as the all-zero k-point triggering the real-valued path. -/
def gamma_point (v : Vec3) : Prop := v = zero3

instance : DecidablePred gamma_point := fun v => decEq v zero3

/-- Modelled from the spec: `lib.prange(start, stop, step)` splits
`[start, stop)` into consecutive blocks of length `step` (the final
block clipped at `stop`), as the batched plane-wave loop requires. -/
def prange (start stop step : ℕ) : List (ℕ × ℕ) :=
  (List.range ((stop - start + step - 1) / step)).map
    (fun k => (start + step * k, min (start + step * (k + 1)) stop))

/-- Block size computed by `AFTDF.pw_loop` when no explicit `blksize` is
supplied: `min(max(16, int(max_memory*1e6*.75/16/nij)), 16384)`. -/
def pw_blksize (M nij : ℕ) : ℕ :=
  min (max 16 (M * 750000 / (16 * nij))) 16384

/-- Block size computed by `AFTDF.ft_loop`:
`blksize = max(16, int(max_memory*.9e6/(nij*nkpts*16)))` followed by
`blksize = min(blksize, ngs, 16384)`. -/
def ft_blksize (M nij nk ngs : ℕ) : ℕ :=
  min (min (max 16 (M * 900000 / (nij * nk * 16))) ngs) 16384

/-- Number of packed orbital pairs `nao*(nao+1)//2`. -/
def nao_pair (nao : ℕ) : ℕ := nao * (nao + 1) / 2

/-- `AFTDF.get_naoaux`: `ngs = numpy.prod(gs*2+1); return ngs * 2`. -/
def get_naoaux (gs : List ℕ) : ℕ :=
  (gs.map (fun g => g * 2 + 1)).prod * 2

/-- `estimate_eta(cell, cutoff)`:
`max(log(4*pi*rcut**5/cutoff)/rcut**2*2, .2)`. -/
noncomputable def estimate_eta (rcut cutoff : ℝ) : ℝ :=
  max (Real.log (4 * Real.pi * rcut ^ 5 / cutoff) / rcut ^ 2 * 2) 0.2

/-- How k-points reach `get_nuc` / `get_pp`: absent (`None`), a single
k-point of shape `(3,)`, or a batch of shape `(nk, 3)`. -/
inductive KArg where
  | noneK : KArg
  | single (v : Vec3) : KArg
  | batch (l : List Vec3) : KArg

/-- `kpts_lst`: `None` becomes `numpy.zeros((1,3))`, otherwise
`numpy.reshape(kpts, (-1,3))` — a `(3,)` vector becomes the
one-element batch, a batch stays itself. -/
def kpts_lst : KArg → List Vec3
  | .noneK => [zero3]
  | .single v => [v]
  | .batch l => l

/-- A potential matrix over atomic-orbital pairs, entrywise complex. -/
abbrev Mat := ℕ → ℕ → Cq

/-- Return shape of `get_nuc` / `get_pp`: a bare matrix or a list of
per-k-point matrices. -/
inductive NucOut where
  | one (m : Mat) : NucOut
  | many (l : List Mat) : NucOut

/-- The list of matrices held by a `NucOut` (a bare matrix counts as a
one-element list). -/
def NucOut.mats : NucOut → List Mat
  | .one m => [m]
  | .many l => l

/-- External collaborators and cell data consumed by `get_nuc`
(`src/pyscf/pbc/df/aft.py`): the structure factor `cell.get_SI`, the
GTH local part-1 kernel `pseudo.pp_int.get_gth_vlocG_part1`, quadrature
weights `kws`, atomic charges, the Coulomb kernel `tools.get_coulG`,
the Fourier-transformed auxiliary Gaussians `ft_ao.ft_ao(nuccell, Gv)`,
the analytic short-range integrals `_int_nuc_vloc` (per k-point), and
the Fourier-transformed orbital pairs delivered by `ft_loop`. -/
structure NucExt where
  natm : ℕ
  nao : ℕ
  ngrid : ℕ
  eta : ℚ
  kws : ℕ → ℚ
  SI : ℕ → ℕ → Cq
  vlocG1 : ℕ → ℕ → Cq
  charges : ℕ → ℚ
  coulG : ℕ → ℚ
  aoaux : ℕ → ℕ → Cq
  intNuc : Vec3 → ℕ → Cq
  aoao : Vec3 → ℕ → ℕ → Cq

/-- The reciprocal-space nuclear density `vG` of `get_nuc`: for
`eta == 0` it is `-einsum('ij,ij->j', SI, vpplocG) * kws`; otherwise
`einsum('i,xi->x', -charges, aoaux) * (coulG * kws)`. -/
def vG (E : NucExt) (g : ℕ) : Cq :=
  if E.eta = 0 then
    csmul (E.kws g) (-(∑ i ∈ Finset.range E.natm, cmul (E.SI i g) (E.vlocG1 i g)))
  else
    csmul (E.coulG g * E.kws g)
      (∑ i ∈ Finset.range E.natm, csmul (-(E.charges i)) (E.aoaux g i))

/-- One grid point's contribution to `vj[k]` in `get_nuc`'s `ft_loop`
contraction: at the Γ-point the real/real and imaginary/imaginary
parts are contracted separately (a real update), otherwise
`vG.conj() * aoao`. -/
def nucContrib (E : NucExt) (kpt : Vec3) (x g : ℕ) : Cq :=
  if gamma_point kpt then
    ((vG E g).1 * (E.aoao kpt g x).1 + (vG E g).2 * (E.aoao kpt g x).2, 0)
  else
    cmul (cconj (vG E g)) (E.aoao kpt g x)

/-- The packed pair vector `vj[k]` after `get_nuc`'s block loop: the
initial value (zero for `eta == 0`, else the `_int_nuc_vloc` result)
plus the sum over `ft_loop` blocks of the per-block contraction; the
block decomposition follows `ft_loop`'s `prange` with its computed
block size. -/
def vjPacked (E : NucExt) (M nk : ℕ) (kpt : Vec3) (x : ℕ) : Cq :=
  (if E.eta = 0 then 0 else E.intNuc kpt x) +
    (((prange 0 E.ngrid (ft_blksize M (nao_pair E.nao) nk E.ngrid)).map
        (fun pq => ∑ g ∈ Finset.Ico pq.1 pq.2, nucContrib E kpt x g)).sum)

/-- Modelled from the spec: `lib.unpack_tril` (from `pyscf.lib`, not
under `src/`) expands a packed lower triangle into the full Hermitian
matrix — "stored compactly (unique upper/lower triangle) then expanded
on return". -/
def unpack_tril (p : ℕ → Cq) : Mat := fun i j =>
  if j ≤ i then p (i * (i + 1) / 2 + j) else cconj (p (j * (j + 1) / 2 + i))

/-- The per-k-point matrix produced by `get_nuc`: at the Γ-point the
packed vector's real part is unpacked (`vj[k].real`), otherwise the
full complex vector is unpacked. -/
def get_nuc_mat (E : NucExt) (M nk : ℕ) (kpt : Vec3) : Mat :=
  if gamma_point kpt then
    unpack_tril (fun x => ((vjPacked E M nk kpt x).1, 0))
  else
    unpack_tril (vjPacked E M nk kpt)

/-- `get_nuc(mydf, kpts)`: map `get_nuc_mat` over `kpts_lst`, then
unwrap to a bare matrix when `kpts is None or numpy.shape(kpts)==(3,)`. -/
def get_nuc_model (E : NucExt) (M : ℕ) (inp : KArg) : NucOut :=
  let lst := kpts_lst inp
  let mats := lst.map (get_nuc_mat E M lst.length)
  match inp with
  | .noneK => .one mats.headI
  | .single _ => .one mats.headI
  | .batch _ => .many mats

/-- The per-k-point pseudopotential matrix assembled by `get_pp`:
`vpp[k] += vloc1[k] + vloc2[k]` with `vloc1` from `get_nuc`, `vloc2`
from `get_pp_loc_part2` and `vpp` from `get_pp_nl` (both external). -/
def get_pp_mat (E : NucExt) (vloc2 vppnl : Vec3 → Mat) (M nk : ℕ)
    (kpt : Vec3) : Mat :=
  vppnl kpt + (get_nuc_mat E M nk kpt + vloc2 kpt)

/-- `get_pp(mydf, kpts)`: assemble `get_pp_mat` over `kpts_lst`, with
the same single-k-point unwrapping as `get_nuc`. -/
def get_pp_model (E : NucExt) (vloc2 vppnl : Vec3 → Mat) (M : ℕ)
    (inp : KArg) : NucOut :=
  let lst := kpts_lst inp
  let vpp := lst.map (get_pp_mat E vloc2 vppnl M lst.length)
  match inp with
  | .noneK => .one vpp.headI
  | .single _ => .one vpp.headI
  | .batch _ => .many vpp

/-- A trivial instantiation of the external data (empty cell, zero
grid), used to evaluate the model at concrete inputs. -/
def E0 : NucExt :=
  ⟨0, 0, 0, 0, fun _ => 0, fun _ _ => 0, fun _ _ => 0, fun _ => 0,
   fun _ => 0, fun _ _ => 0, fun _ _ => 0, fun _ _ _ => 0⟩

/-- Permutation-symmetry flag of the pair generators: full (`'s1'`) or
triangular-packed (`'s2'`). -/
inductive Aosym where
  | s1 : Aosym
  | s2 : Aosym

/-- The sub-blocked ranges yielded by `pw_loop`: each `prange` block of
the outer loop is further cut into `sublk`-sized sub-blocks
`(p0+i0, p0+i1)` for the real/imaginary split. -/
def pw_blocks (ngs M nij : ℕ) (blk : Option ℕ) : List (ℕ × ℕ) :=
  let b := blk.getD (pw_blksize M nij)
  let sublk := match blk with
    | none => max 16 (pw_blksize M nij / 4)
    | some s => s
  ((prange 0 ngs b).map
    (fun pq => (prange 0 (pq.2 - pq.1) sublk).map
      (fun ij => (pq.1 + ij.1, pq.1 + ij.2)))).flatten

/-- `AFTDF.pw_loop`: with `aosym='s2'` it asserts
`shls_slice[2] == 0` before producing any block (the generator body
fails fast on first pull); `.error` models the `AssertionError`. -/
def pw_loop_model (ngs nbas : ℕ) (ao_loc : ℕ → ℕ) (M : ℕ)
    (shls : Option (ℕ × ℕ × ℕ × ℕ)) (aosym : Aosym) (blk : Option ℕ) :
    Except Unit (List (ℕ × ℕ)) :=
  let sl := shls.getD (0, nbas, 0, nbas)
  match aosym with
  | .s2 =>
    if sl.2.2.1 ≠ 0 then .error () else
      let i0 := ao_loc sl.1
      let i1 := ao_loc sl.2.1
      let nij := i1 * (i1 + 1) / 2 - i0 * (i0 + 1) / 2
      .ok (pw_blocks ngs M nij blk)
  | .s1 =>
      let nij := (ao_loc sl.2.1 - ao_loc sl.1) *
        (ao_loc sl.2.2.2 - ao_loc sl.2.2.1)
      .ok (pw_blocks ngs M nij blk)

/-- The body of `AFTDF.ft_loop` after the k-point default is resolved:
the `'s2'` assertion on `shls_slice[2]`, the pair count, the block
size, and the `prange` block sequence, returned with the k-point batch
actually used. -/
def ft_body (ks : List Vec3) (ngs nbas : ℕ) (ao_loc : ℕ → ℕ) (M : ℕ)
    (shls : Option (ℕ × ℕ × ℕ × ℕ)) (aosym : Aosym) :
    Except Unit (List Vec3 × List (ℕ × ℕ)) :=
  let sl := shls.getD (0, nbas, 0, nbas)
  match aosym with
  | .s2 =>
    if sl.2.2.1 ≠ 0 then .error () else
      let i0 := ao_loc sl.1
      let i1 := ao_loc sl.2.1
      let nij := i1 * (i1 + 1) / 2 - i0 * (i0 + 1) / 2
      .ok (ks, prange 0 ngs (ft_blksize M nij ks.length ngs))
  | .s1 =>
      let nij := (ao_loc sl.2.1 - ao_loc sl.1) *
        (ao_loc sl.2.2.2 - ao_loc sl.2.2.1)
      .ok (ks, prange 0 ngs (ft_blksize M nij ks.length ngs))

/-- `AFTDF.ft_loop`: when `kpts is None` it asserts `is_zero(q)` and
substitutes the stored `self.kpts`, all before any block is produced. -/
def ft_loop_model (selfKpts : List Vec3) (ngs nbas : ℕ) (ao_loc : ℕ → ℕ)
    (M : ℕ) (q : Vec3) (kpts : Option (List Vec3))
    (shls : Option (ℕ × ℕ × ℕ × ℕ)) (aosym : Aosym) :
    Except Unit (List Vec3 × List (ℕ × ℕ)) :=
  match kpts with
  | none =>
    if ¬ gamma_point q then .error ()
    else ft_body selfKpts ngs nbas ao_loc M shls aosym
  | some ks => ft_body ks ngs nbas ao_loc M shls aosym

/-- A k-point argument to `get_jk`: a single `(3,)` vector or a batch. -/
inductive JKArg where
  | singleK (v : Vec3) : JKArg
  | batchK (l : List Vec3) : JKArg

/-- Result of `get_jk`: either the single-k-point path (recording the
k-point used and the collaborator's bare `(J, K)` pair), or the
k-point-batch path with its optional `J` and `K`. -/
inductive JKRes (Mt : Type) where
  | singleJK (kpt : Vec3) (jk : Mt × Mt) : JKRes Mt
  | batchJK (vj vk : Option Mt) : JKRes Mt

/-- `AFTDF.get_jk`: with `kpts=None`, dispatch on the stored k-points
(`numpy.all(self.kpts == 0)` selects the Γ single-k-point path with a
shape-`(3,)` zero vector); shape-`(3,)` arguments take the single path
via `aft_jk.get_jk`, batches take `get_k_kpts` / `get_j_kpts` guarded
by `with_k` / `with_j`. -/
def get_jk_model {Mt : Type} (selfKpts : List Vec3)
    (jkSingle : Vec3 → Bool → Bool → Mt × Mt)
    (getJkpts getKkpts : List Vec3 → Mt)
    (kpts : Option JKArg) (wj wk : Bool) : JKRes Mt :=
  let resolved : JKArg :=
    match kpts with
    | none =>
      if ∀ v ∈ selfKpts, v = zero3 then .singleK zero3 else .batchK selfKpts
    | some arg => arg
  match resolved with
  | .singleK v => .singleJK v (jkSingle v wj wk)
  | .batchK l =>
      .batchJK (if wj then some (getJkpts l) else none)
               (if wk then some (getKkpts l) else none)

/-- C8: `get_naoaux` returns exactly twice the grid point count
`∏ (2*gs_i + 1)`. -/
theorem get_naoaux_twice_grid (gs : List ℕ) :
    get_naoaux gs = 2 * (gs.map (fun g => 2 * g + 1)).prod := by
  have h : (fun g : ℕ => g * 2 + 1) = (fun g : ℕ => 2 * g + 1) := by
    funext g; ring
  simp [get_naoaux, h, Nat.mul_comm]

/-- C1 fails as stated: with memory ceiling 2000 (MB), one orbital pair
and a grid of 10 points, `pw_loop` computes block size 16384, which is
not bounded by `min(grid_size, 16384) = 10` — `pw_loop` never clamps its
block size to the grid size. -/
theorem pw_blksize_exceeds_grid : ¬ (pw_blksize 2000 1 ≤ min 10 16384) := by
  decide

/-- C1 (amended): `pw_loop`'s automatic block size `b` satisfies
`16 ≤ b ≤ 16384` (with no grid-size cap) and
`b·N·16 ≤ max(0.75·M·10^6, 256·N)`; `ft_loop`'s block size `b'`
satisfies `b' ≤ min(grid_size, 16384)`, `16 ≤ b'` whenever the grid has
at least 16 points, and `b'·N·K·16 ≤ max(0.9·M·10^6, 256·N·K)` for `K`
k-points. -/
theorem blksize_bounds (M nij nk ngs : ℕ) (hnij : 0 < nij) (hnk : 0 < nk) :
    16 ≤ pw_blksize M nij ∧ pw_blksize M nij ≤ 16384 ∧
    16 * pw_blksize M nij * nij ≤ max (M * 750000) (256 * nij) ∧
    ft_blksize M nij nk ngs ≤ min ngs 16384 ∧
    (16 ≤ ngs → 16 ≤ ft_blksize M nij nk ngs) ∧
    16 * ft_blksize M nij nk ngs * (nij * nk) ≤
      max (M * 900000) (256 * (nij * nk)) := by
  refine ⟨?_, ?_, ?_, ?_, ?_, ?_⟩
  · exact le_min (le_max_left _ _) (by norm_num)
  · exact min_le_right _ _
  · set q := M * 750000 / (16 * nij) with hq
    have hqle : q * (16 * nij) ≤ M * 750000 := Nat.div_mul_le_self _ _
    have hble : pw_blksize M nij ≤ max 16 q := min_le_left _ _
    rcases le_total q 16 with h | h
    · have h16 : pw_blksize M nij ≤ 16 := hble.trans (max_le le_rfl h)
      have : 16 * pw_blksize M nij * nij ≤ 16 * 16 * nij := by
        exact Nat.mul_le_mul_right _ (Nat.mul_le_mul_left _ h16)
      exact le_max_of_le_right (by omega)
    · have hbq : pw_blksize M nij ≤ q := hble.trans (max_le h le_rfl)
      have : 16 * pw_blksize M nij * nij ≤ 16 * q * nij := by
        exact Nat.mul_le_mul_right _ (Nat.mul_le_mul_left _ hbq)
      refine le_max_of_le_left (this.trans ?_)
      calc 16 * q * nij = q * (16 * nij) := by ring
        _ ≤ M * 750000 := hqle
  · exact le_min ((min_le_left _ _).trans (min_le_right _ _)) (min_le_right _ _)
  · intro hgs
    exact le_min (le_min (le_max_left _ _) hgs) (by norm_num)
  · set q := M * 900000 / (nij * nk * 16) with hq
    have hqle : q * (nij * nk * 16) ≤ M * 900000 := Nat.div_mul_le_self _ _
    have hble : ft_blksize M nij nk ngs ≤ max 16 q :=
      ((min_le_left _ _).trans (min_le_left _ _))
    rcases le_total q 16 with h | h
    · have h16 : ft_blksize M nij nk ngs ≤ 16 := hble.trans (max_le le_rfl h)
      have : 16 * ft_blksize M nij nk ngs * (nij * nk) ≤ 16 * 16 * (nij * nk) :=
        Nat.mul_le_mul_right _ (Nat.mul_le_mul_left _ h16)
      exact le_max_of_le_right (by omega)
    · have hbq : ft_blksize M nij nk ngs ≤ q := hble.trans (max_le h le_rfl)
      have : 16 * ft_blksize M nij nk ngs * (nij * nk) ≤ 16 * q * (nij * nk) :=
        Nat.mul_le_mul_right _ (Nat.mul_le_mul_left _ hbq)
      refine le_max_of_le_left (this.trans ?_)
      calc 16 * q * (nij * nk) = q * (nij * nk * 16) := by ring
        _ ≤ M * 900000 := hqle

/-- Witness for `blksize_bounds` at `M = 2000`, `nij = 3`, `nk = 2`,
`ngs = 100`. -/
theorem blksize_bounds_witness :
    0 < 3 ∧ 0 < 2 ∧
    (16 ≤ pw_blksize 2000 3 ∧ pw_blksize 2000 3 ≤ 16384 ∧
     16 * pw_blksize 2000 3 * 3 ≤ max (2000 * 750000) (256 * 3) ∧
     ft_blksize 2000 3 2 100 ≤ min 100 16384 ∧
     (16 ≤ 100 → 16 ≤ ft_blksize 2000 3 2 100) ∧
     16 * ft_blksize 2000 3 2 100 * (3 * 2) ≤
       max (2000 * 900000) (256 * (3 * 2))) :=
  ⟨by norm_num, by norm_num, blksize_bounds 2000 3 2 100 (by norm_num) (by norm_num)⟩

/-- C5: for fixed `rcut > 0`, `estimate_eta` is non-increasing in the
cutoff (tightening the cutoff never decreases eta), and for every
cutoff the returned exponent is at least the floor `0.2`. -/
theorem estimate_eta_mono_floor (rcut c1 c2 : ℝ)
    (hr : 0 < rcut) (h1 : 0 < c1) (h12 : c1 ≤ c2) :
    estimate_eta rcut c2 ≤ estimate_eta rcut c1 ∧
    ∀ c : ℝ, (0.2 : ℝ) ≤ estimate_eta rcut c := by
  constructor
  · unfold estimate_eta
    have hnum : (0 : ℝ) < 4 * Real.pi * rcut ^ 5 := by positivity
    have h2 : (0 : ℝ) < c2 := lt_of_lt_of_le h1 h12
    have harg : 4 * Real.pi * rcut ^ 5 / c2 ≤ 4 * Real.pi * rcut ^ 5 / c1 :=
      div_le_div_of_nonneg_left hnum.le h1 h12
    have hpos : (0 : ℝ) < 4 * Real.pi * rcut ^ 5 / c2 := by positivity
    have hlog : Real.log (4 * Real.pi * rcut ^ 5 / c2) ≤
        Real.log (4 * Real.pi * rcut ^ 5 / c1) := Real.log_le_log hpos harg
    have hsq : (0 : ℝ) < rcut ^ 2 := by positivity
    have hdiv := (div_le_div_iff_of_pos_right hsq).mpr hlog
    exact max_le_max (mul_le_mul_of_nonneg_right hdiv (by norm_num)) le_rfl
  · intro c
    exact le_max_right _ _

/-- Witness for `estimate_eta_mono_floor` at `rcut = 1`, `c1 = 1`,
`c2 = 2`. -/
theorem estimate_eta_mono_floor_witness :
    (0 : ℝ) < 1 ∧ (0 : ℝ) < 1 ∧ ((1 : ℝ) ≤ 2) ∧
    (estimate_eta 1 2 ≤ estimate_eta 1 1 ∧
     ∀ c : ℝ, (0.2 : ℝ) ≤ estimate_eta 1 c) :=
  ⟨by norm_num, by norm_num, by norm_num,
   estimate_eta_mono_floor 1 1 2 (by norm_num) (by norm_num) (by norm_num)⟩

/-- C2: a shape-`(3,)` k-point yields a bare matrix from `get_nuc` and
`get_pp`, a shape-`(1,3)` batch of the same k-point yields a
one-element list, the bare matrix and the list's element are the same
matrix, and `kpts=None` behaves as the shape-`(3,)` Γ-point call. -/
theorem single_kpt_unwrap (E : NucExt) (vloc2 vppnl : Vec3 → Mat)
    (M : ℕ) (v : Vec3) :
    get_nuc_model E M (.single v) = .one (get_nuc_mat E M 1 v) ∧
    get_nuc_model E M (.batch [v]) = .many [get_nuc_mat E M 1 v] ∧
    get_nuc_model E M .noneK = get_nuc_model E M (.single zero3) ∧
    get_pp_model E vloc2 vppnl M (.single v) =
      .one (get_pp_mat E vloc2 vppnl M 1 v) ∧
    get_pp_model E vloc2 vppnl M (.batch [v]) =
      .many [get_pp_mat E vloc2 vppnl M 1 v] ∧
    get_pp_model E vloc2 vppnl M .noneK =
      get_pp_model E vloc2 vppnl M (.single zero3) :=
  ⟨rfl, rfl, rfl, rfl, rfl, rfl⟩

/-- C3: for every requested k-point, the matrix returned by `get_pp`
is exactly the elementwise sum of the `get_nuc` local part-1 matrix,
the external local part-2 matrix, and the external nonlocal matrix. -/
theorem get_pp_additivity (E : NucExt) (vloc2 vppnl : Vec3 → Mat)
    (M : ℕ) (l : List Vec3) (v : Vec3) :
    (get_pp_model E vloc2 vppnl M (.batch l)).mats =
      l.map (fun kpt => fun r c =>
        (get_nuc_mat E M l.length kpt) r c + (vloc2 kpt) r c +
          (vppnl kpt) r c) ∧
    (get_pp_model E vloc2 vppnl M (.single v)).mats =
      [fun r c =>
        (get_nuc_mat E M 1 v) r c + (vloc2 v) r c + (vppnl v) r c] := by
  constructor
  · simp only [get_pp_model, NucOut.mats, kpts_lst]
    apply List.map_congr_left
    intro kpt _
    funext r c
    simp only [get_pp_mat, Pi.add_apply]
    abel
  · simp only [get_pp_model, NucOut.mats, kpts_lst, List.map_cons,
      List.map_nil, List.headI, List.length_cons, List.length_nil]
    congr 1
    funext r c
    simp only [get_pp_mat, Pi.add_apply]
    abel

/-- C4: at an all-zero (Γ-point) k-point, `get_nuc`'s matrix is real
(its imaginary part is discarded exactly, via `vj[k].real`) and is
symmetric (equal to its own transpose). -/
theorem gamma_real_symmetric (E : NucExt) (M nk : ℕ) (kpt : Vec3)
    (h : gamma_point kpt) (i j : ℕ) :
    (get_nuc_mat E M nk kpt i j).2 = 0 ∧
    get_nuc_mat E M nk kpt i j = get_nuc_mat E M nk kpt j i := by
  simp only [get_nuc_mat, if_pos h, unpack_tril]
  rcases le_total j i with hji | hij
  · rcases eq_or_lt_of_le hji with rfl | hlt
    · simp [cconj]
    · rw [if_pos hji, if_neg (by omega)]
      exact ⟨rfl, by simp [cconj]⟩
  · rcases eq_or_lt_of_le hij with rfl | hlt
    · simp [cconj]
    · rw [if_neg (by omega), if_pos hij]
      exact ⟨by simp [cconj], by simp [cconj]⟩

/-- Witness for `gamma_real_symmetric` on the trivial cell at the
Γ-point, entry (1, 0). -/
theorem gamma_real_symmetric_witness :
    gamma_point zero3 ∧
    ((get_nuc_mat E0 2000 1 zero3 1 0).2 = 0 ∧
     get_nuc_mat E0 2000 1 zero3 1 0 = get_nuc_mat E0 2000 1 zero3 0 1) :=
  ⟨rfl, gamma_real_symmetric E0 2000 1 zero3 rfl 1 0⟩

/-- C7: when `eta == 0`, `get_nuc` is computed without the analytic
short-range pass — its result is unchanged under arbitrary replacement
of `_int_nuc_vloc` and of the auxiliary-charge-cell data (charges,
`aoaux`, `coulG`) — and the reciprocal nuclear density is
`-einsum('ij,ij->j', SI, vpplocG) * kws`, the structure factor
contracted with the GTH local part-1 kernel times the quadrature
weights. -/
theorem eta_zero_reciprocal_only (E : NucExt) (f : Vec3 → ℕ → Cq)
    (c : ℕ → ℚ) (a : ℕ → ℕ → Cq) (cg : ℕ → ℚ) (M : ℕ) (inp : KArg)
    (h : E.eta = 0) :
    get_nuc_model
        { E with intNuc := f, charges := c, aoaux := a, coulG := cg } M inp
      = get_nuc_model E M inp ∧
    ∀ g, vG E g =
      csmul (E.kws g)
        (-(∑ i ∈ Finset.range E.natm, cmul (E.SI i g) (E.vlocG1 i g))) := by
  have hvG : ∀ g,
      vG { E with intNuc := f, charges := c, aoaux := a, coulG := cg } g
      = vG E g := by
    intro g; simp [vG, h]
  have hcon : ∀ kpt x g,
      nucContrib
        { E with intNuc := f, charges := c, aoaux := a, coulG := cg } kpt x g
      = nucContrib E kpt x g := by
    intro kpt x g; simp [nucContrib, hvG]
  have hvj : ∀ n kpt,
      vjPacked
        { E with intNuc := f, charges := c, aoaux := a, coulG := cg } M n kpt
      = vjPacked E M n kpt := by
    intro n kpt; funext x
    simp only [vjPacked, hcon]
    simp [h]
  have hmat : ∀ n kpt,
      get_nuc_mat
        { E with intNuc := f, charges := c, aoaux := a, coulG := cg } M n kpt
      = get_nuc_mat E M n kpt := by
    intro n kpt; simp [get_nuc_mat, hvj]
  constructor
  · cases inp <;> simp [get_nuc_model, kpts_lst, hmat]
  · intro g
    simp [vG, h]

/-- Witness for `eta_zero_reciprocal_only` on the trivial cell (whose
`eta` is zero), with all replacement collaborators zero. -/
theorem eta_zero_reciprocal_only_witness :
    E0.eta = 0 ∧
    (get_nuc_model
        { E0 with intNuc := fun _ _ => (1, 1), charges := fun _ => 5,
                  aoaux := fun _ _ => (2, 3), coulG := fun _ => 7 } 2000
        (.single zero3)
      = get_nuc_model E0 2000 (.single zero3) ∧
     ∀ g, vG E0 g =
       csmul (E0.kws g)
         (-(∑ i ∈ Finset.range E0.natm,
             cmul (E0.SI i g) (E0.vlocG1 i g)))) :=
  ⟨rfl, eta_zero_reciprocal_only E0 (fun _ _ => (1, 1)) (fun _ => 5)
    (fun _ _ => (2, 3)) (fun _ => 7) 2000 (.single zero3) rfl⟩

/-- Helper: whenever `ft_body` succeeds, the k-point batch it reports
is exactly the batch it was given. -/
theorem ft_body_ok_kpts (ks : List Vec3) (ngs nbas : ℕ) (ao_loc : ℕ → ℕ)
    (M : ℕ) (shls : Option (ℕ × ℕ × ℕ × ℕ)) (aosym : Aosym)
    (p : List Vec3 × List (ℕ × ℕ))
    (h : ft_body ks ngs nbas ao_loc M shls aosym = .ok p) : p.1 = ks := by
  cases aosym with
  | s1 =>
    simp only [ft_body, Except.ok.injEq] at h
    subst h; rfl
  | s2 =>
    simp only [ft_body] at h
    split at h
    · exact Except.noConfusion h
    · simp only [Except.ok.injEq] at h
      subst h; rfl

/-- C6: in packed-symmetry mode (`aosym='s2'`), a nonzero second-range
start index makes both `pw_loop` and `ft_loop` fail fast with the
assertion error before any block is produced; with a zero start index
the assertion branch is unreachable and a block sequence is returned. -/
theorem s2_slice_assert (ngs nbas M : ℕ) (ao_loc : ℕ → ℕ) (blk : Option ℕ)
    (selfKpts ks : List Vec3) (q : Vec3) (i0 i1 j0 j1 : ℕ) :
    (j0 ≠ 0 →
      pw_loop_model ngs nbas ao_loc M (some (i0, i1, j0, j1)) .s2 blk
        = .error () ∧
      ft_loop_model selfKpts ngs nbas ao_loc M q (some ks)
        (some (i0, i1, j0, j1)) .s2 = .error ()) ∧
    (j0 = 0 →
      (∃ bl, pw_loop_model ngs nbas ao_loc M (some (i0, i1, j0, j1)) .s2 blk
        = .ok bl) ∧
      (∃ r, ft_loop_model selfKpts ngs nbas ao_loc M q (some ks)
        (some (i0, i1, j0, j1)) .s2 = .ok r)) := by
  constructor
  · intro hj
    constructor
    · simp [pw_loop_model, hj]
    · simp [ft_loop_model, ft_body, hj]
  · intro hj
    subst hj
    exact ⟨⟨_, rfl⟩, ⟨_, rfl⟩⟩

/-- Witness for `s2_slice_assert` with shell slice `(0,4,1,4)` (error
case) and `(0,4,0,4)` (success case) on a 50-point grid. -/
theorem s2_slice_assert_witness :
    ((1 : ℕ) ≠ 0 ∧
     (pw_loop_model 50 4 id 2000 (some (0, 4, 1, 4)) .s2 none = .error () ∧
      ft_loop_model [zero3] 50 4 id 2000 zero3 (some [zero3])
        (some (0, 4, 1, 4)) .s2 = .error ())) ∧
    ((0 : ℕ) = 0 ∧
     ((∃ bl, pw_loop_model 50 4 id 2000 (some (0, 4, 0, 4)) .s2 none
        = .ok bl) ∧
      (∃ r, ft_loop_model [zero3] 50 4 id 2000 zero3 (some [zero3])
        (some (0, 4, 0, 4)) .s2 = .ok r))) :=
  ⟨⟨by decide,
    (s2_slice_assert 50 4 2000 id none [zero3] [zero3] zero3 0 4 1 4).1
      (by decide)⟩,
   ⟨rfl,
    (s2_slice_assert 50 4 2000 id none [zero3] [zero3] zero3 0 4 0 4).2
      rfl⟩⟩

/-- C10: calling `ft_loop` with `kpts=None` and a nonzero momentum
transfer `q` fails the assertion before any block is produced; with
`q` zero the call equals the call with the stored `self.kpts`
substituted, and any successful result carries `self.kpts` as its
k-point batch. -/
theorem ft_loop_kpts_none (selfKpts : List Vec3) (ngs nbas : ℕ)
    (ao_loc : ℕ → ℕ) (M : ℕ) (q : Vec3)
    (shls : Option (ℕ × ℕ × ℕ × ℕ)) (aosym : Aosym) :
    (¬ gamma_point q →
      ft_loop_model selfKpts ngs nbas ao_loc M q none shls aosym
        = .error ()) ∧
    (gamma_point q →
      ft_loop_model selfKpts ngs nbas ao_loc M q none shls aosym =
        ft_loop_model selfKpts ngs nbas ao_loc M q (some selfKpts)
          shls aosym ∧
      ∀ ks blocks,
        ft_loop_model selfKpts ngs nbas ao_loc M q none shls aosym
          = .ok (ks, blocks) → ks = selfKpts) := by
  constructor
  · intro hq
    simp [ft_loop_model, hq]
  · intro hq
    constructor
    · simp [ft_loop_model, hq]
    · intro ks blocks h
      simp only [ft_loop_model, hq, not_true_eq_false, if_neg,
        if_false, not_false_eq_true] at h
      exact ft_body_ok_kpts selfKpts ngs nbas ao_loc M shls aosym
        (ks, blocks) h

/-- Witness for `ft_loop_kpts_none`: nonzero `q = (1,0,0)` errors,
zero `q` substitutes the stored k-points. -/
theorem ft_loop_kpts_none_witness :
    (¬ gamma_point ((1 : ℚ), (0 : ℚ), (0 : ℚ)) ∧
     ft_loop_model [zero3] 50 4 id 2000 ((1 : ℚ), (0 : ℚ), (0 : ℚ)) none
       none .s1 = .error ()) ∧
    (gamma_point zero3 ∧
     ft_loop_model [zero3] 50 4 id 2000 zero3 none none .s1 =
       ft_loop_model [zero3] 50 4 id 2000 zero3 (some [zero3]) none .s1) :=
  ⟨⟨by decide,
    (ft_loop_kpts_none [zero3] 50 4 id 2000 ((1 : ℚ), (0 : ℚ), (0 : ℚ))
      none .s1).1 (by decide)⟩,
   ⟨rfl,
    ((ft_loop_kpts_none [zero3] 50 4 id 2000 zero3 none .s1).2 rfl).1⟩⟩

/-- C9: `get_jk` with `kpts=None` dispatches on the stored k-points —
all-zero stored k-points select the single-k-point Γ path with a bare
`(J, K)` result at the shape-`(3,)` zero vector; otherwise the batch
path runs over the stored k-points, returning `None` for `J` when
`with_j` is false and `None` for `K` when `with_k` is false. -/
theorem get_jk_dispatch {Mt : Type} (selfKpts : List Vec3)
    (jkSingle : Vec3 → Bool → Bool → Mt × Mt)
    (getJkpts getKkpts : List Vec3 → Mt) (wj wk : Bool) :
    ((∀ v ∈ selfKpts, v = zero3) →
      get_jk_model selfKpts jkSingle getJkpts getKkpts none wj wk =
        .singleJK zero3 (jkSingle zero3 wj wk)) ∧
    ((¬ ∀ v ∈ selfKpts, v = zero3) →
      get_jk_model selfKpts jkSingle getJkpts getKkpts none wj wk =
        .batchJK (if wj then some (getJkpts selfKpts) else none)
                 (if wk then some (getKkpts selfKpts) else none)) := by
  constructor
  · intro hz
    simp only [get_jk_model, if_pos hz]
  · intro hz
    simp only [get_jk_model, if_neg hz]

/-- Witness for `get_jk_dispatch` over `Mt = ℕ`: the all-zero stored
batch `[0]` takes the Γ path, the batch `[(1,0,0)]` takes the k-point
batch path with `with_j = false`, `with_k = true`. -/
theorem get_jk_dispatch_witness :
    ((∀ v ∈ [zero3], v = zero3) ∧
     get_jk_model [zero3] (fun _ _ _ => ((1 : ℕ), 2)) (fun _ => 3)
       (fun _ => 4) none false true =
       .singleJK zero3 ((1 : ℕ), 2)) ∧
    ((¬ ∀ v ∈ [((1 : ℚ), (0 : ℚ), (0 : ℚ))], v = zero3) ∧
     get_jk_model [((1 : ℚ), (0 : ℚ), (0 : ℚ))] (fun _ _ _ => ((1 : ℕ), 2))
       (fun _ => 3) (fun _ => 4) none false true =
       .batchJK none (some 4)) :=
  ⟨⟨by decide,
    (get_jk_dispatch [zero3] (fun _ _ _ => ((1 : ℕ), 2)) (fun _ => 3)
      (fun _ => 4) false true).1 (by decide)⟩,
   ⟨by decide, by
    have h := (get_jk_dispatch [((1 : ℚ), (0 : ℚ), (0 : ℚ))]
      (fun _ _ _ => ((1 : ℕ), 2)) (fun _ => 3) (fun _ => 4) false true).2
      (by decide)
    simpa using h⟩⟩
